import Mathlib

set_option maxRecDepth 200000

namespace Cryptocloud

/-!
Shallow embedding of the retry executor and webhook signature verifier of
the cryptocloud-sdk repository:
  src/client/CryptocloudClient.ts   (withRetry, getInvoiceInfo, defaults)
  src/client/CryptocloudSignature.ts (computeHmac, verifySignature)
  src/types/public.ts               (CryptocloudError, RetryOptions)
-/

/-- Model of the CryptocloudError class (src/types/public.ts lines 198-208).
The field isCryptocloudError records whether the thrown value is an instance
of CryptocloudError, which the retry loop tests with instanceof; statusCode
is the optional HTTP status. -/
structure CCError where
  isCryptocloudError : Bool
  message : String
  code : String
  statusCode : Option Nat
  deriving DecidableEq

/-- Model of RetryOptions (src/types/public.ts lines 210-214): three optional
numeric fields. -/
structure RetryOptions where
  maxRetries : Option Nat
  delayMs : Option Nat
  backoffMultiplier : Option Nat
  deriving DecidableEq

/-- Retry options with every field present, as produced by the spread merge. -/
structure ResolvedRetryOptions where
  maxRetries : Nat
  delayMs : Nat
  backoffMultiplier : Nat
  deriving DecidableEq

/-- DEFAULT_RETRY_OPTIONS (CryptocloudClient.ts lines 29-33). -/
def DEFAULT_RETRY_OPTIONS : ResolvedRetryOptions :=
  { maxRetries := 3, delayMs := 1000, backoffMultiplier := 2 }

/-- The spread merge on CryptocloudClient.ts line 132: each field absent from
the caller-supplied options falls back to the default. -/
def resolveOptions (o : RetryOptions) : ResolvedRetryOptions :=
  { maxRetries := o.maxRetries.getD DEFAULT_RETRY_OPTIONS.maxRetries,
    delayMs := o.delayMs.getD DEFAULT_RETRY_OPTIONS.delayMs,
    backoffMultiplier := o.backoffMultiplier.getD DEFAULT_RETRY_OPTIONS.backoffMultiplier }

/-- The no-retry test of CryptocloudClient.ts lines 142-145: the caught error
is a CryptocloudError and its statusCode is 400, 401 or 403. -/
def nonRetryable (e : CCError) : Bool :=
  e.isCryptocloudError &&
    (e.statusCode == some 400 || e.statusCode == some 401 || e.statusCode == some 403)

/-- Observable outcome of one withRetry call: the value returned or error
raised, how many times the operation ran, and the delays slept between
consecutive attempts, in order. -/
structure RetryRun (α : Type) where
  result : Except CCError α
  attempts : Nat
  delays : List Nat

/-- The loop body of withRetry (CryptocloudClient.ts lines 135-160) with the
attempt counter explicit. Here fuel equals maxRetries minus attempt, so the
test attempt < maxRetries on line 147 becomes fuel > 0; op k is the outcome
of the operation on its (k+1)-st execution. When fuel is 0 the loop is on its
final iteration: a caught error is rethrown either on line 144 or as
lastError on line 160, identically in both cases. -/
def withRetryAux {α : Type} (op : Nat → Except CCError α) (delayMs mult : Nat) :
    Nat → Nat → RetryRun α
  | attempt, 0 =>
    match op attempt with
    | .ok v => ⟨.ok v, 1, []⟩
    | .error e => ⟨.error e, 1, []⟩
  | attempt, fuel + 1 =>
    match op attempt with
    | .ok v => ⟨.ok v, 1, []⟩
    | .error e =>
      if nonRetryable e then ⟨.error e, 1, []⟩
      else
        ⟨(withRetryAux op delayMs mult (attempt + 1) fuel).result,
         (withRetryAux op delayMs mult (attempt + 1) fuel).attempts + 1,
         delayMs * mult ^ attempt :: (withRetryAux op delayMs mult (attempt + 1) fuel).delays⟩

/-- withRetry (CryptocloudClient.ts lines 128-161): merge the options with the
defaults, then run the attempt loop starting at attempt 0. -/
def withRetry {α : Type} (op : Nat → Except CCError α) (retryOptions : RetryOptions) :
    RetryRun α :=
  withRetryAux op (resolveOptions retryOptions).delayMs
    (resolveOptions retryOptions).backoffMultiplier 0 (resolveOptions retryOptions).maxRetries

/-- Model of the parsed API response envelope consumed by getInvoiceInfo. -/
structure ApiResponse (α : Type) where
  status : String
  result : α
  validate_error : Option String
  detail : Option String

/-- JavaScript a || b for an optional string: undefined and the empty string
are both falsy and fall through to b. -/
def jsOrElse (a : Option String) (b : String) : String :=
  match a with
  | some s => if s = "" then b else s
  | none => b

/-- One attempt of getInvoiceInfo (CryptocloudClient.ts lines 216-235): the
two validation checks, then the HTTP call, whose outcome is passed in as
http, then the status check on the response body. The Array.isArray half of
the line-217 test cannot fail here, where uuids is always a list. -/
def getInvoiceInfoAttempt {α : Type} (uuids : List String)
    (http : Except CCError (ApiResponse α)) : Except CCError α :=
  if uuids.length = 0 then
    .error ⟨true, "uuids must be a non-empty array", "INVALID_ARGUMENT", none⟩
  else if uuids.length > 100 then
    .error ⟨true, "Max 100 uuids", "MAX_UUIDS_EXCEEDED", some 400⟩
  else
    match http with
    | .error e => .error e
    | .ok data =>
      if data.status ≠ "success" then
        .error ⟨true, jsOrElse data.validate_error (jsOrElse data.detail "Unknown API error"),
                if data.validate_error == some "Max 100 uuids" then "MAX_UUIDS_EXCEEDED"
                else "API_ERROR",
                none⟩
      else .ok data.result

/-- getInvoiceInfo (CryptocloudClient.ts lines 213-236): the attempt runs
under withRetry with no caller-supplied retry options. -/
def getInvoiceInfo {α : Type} (uuids : List String)
    (http : Nat → Except CCError (ApiResponse α)) : RetryRun α :=
  withRetry (fun k => getInvoiceInfoAttempt uuids (http k)) ⟨none, none, none⟩

/-! Embedding of src/client/CryptocloudSignature.ts. The digest primitive
comes from the node:crypto dependency, not from this repository, so it is
modelled here by a faithful implementation of HMAC-SHA256 over UTF-8 bytes
(FIPS 180-4 and RFC 2104), with bytes and 32-bit words as Nat. -/

/-- Truncation to a 32-bit word. -/
def w32 (n : Nat) : Nat := n % 4294967296

/-- Right rotation of a 32-bit word x by n positions. -/
def rotr (n x : Nat) : Nat := w32 ((x >>> n) ||| (x <<< (32 - n)))

/-- SHA-256 Sigma0 on working variable a. -/
def bigSigma0 (x : Nat) : Nat := rotr 2 x ^^^ rotr 13 x ^^^ rotr 22 x

/-- SHA-256 Sigma1 on working variable e. -/
def bigSigma1 (x : Nat) : Nat := rotr 6 x ^^^ rotr 11 x ^^^ rotr 25 x

/-- SHA-256 sigma0 used in the message schedule. -/
def smallSigma0 (x : Nat) : Nat := rotr 7 x ^^^ rotr 18 x ^^^ (x >>> 3)

/-- SHA-256 sigma1 used in the message schedule. -/
def smallSigma1 (x : Nat) : Nat := rotr 17 x ^^^ rotr 19 x ^^^ (x >>> 10)

/-- SHA-256 choice function: (x AND y) XOR (NOT x AND z) on 32-bit words. -/
def chF (x y z : Nat) : Nat := (x &&& y) ^^^ ((x ^^^ 4294967295) &&& z)

/-- SHA-256 majority function. -/
def majF (x y z : Nat) : Nat := (x &&& y) ^^^ (x &&& z) ^^^ (y &&& z)

/-- The 64 SHA-256 round constants. -/
def sha256K : List Nat :=
  [1116352408, 1899447441, 3049323471, 3921009573, 961987163, 1508970993, 2453635748, 2870763221,
   3624381080, 310598401, 607225278, 1426881987, 1925078388, 2162078206, 2614888103, 3248222580,
   3835390401, 4022224774, 264347078, 604807628, 770255983, 1249150122, 1555081692, 1996064986,
   2554220882, 2821834349, 2952996808, 3210313671, 3336571891, 3584528711, 113926993, 338241895,
   666307205, 773529912, 1294757372, 1396182291, 1695183700, 1986661051, 2177026350, 2456956037,
   2730485921, 2820302411, 3259730800, 3345764771, 3516065817, 3600352804, 4094571909, 275423344,
   430227734, 506948616, 659060556, 883997877, 958139571, 1322822218, 1537002063, 1747873779,
   1955562222, 2024104815, 2227730452, 2361852424, 2428436474, 2756734187, 3204031479, 3329325298]

/-- The eight 32-bit hash values carried between SHA-256 blocks; inside a
block the same shape holds the working variables a through h. -/
structure Sha256State where
  a : Nat
  b : Nat
  c : Nat
  d : Nat
  e : Nat
  f : Nat
  g : Nat
  h : Nat

/-- SHA-256 initial hash values. -/
def sha256init : Sha256State :=
  ⟨1779033703, 3144134277, 1013904242, 2773480762,
   1359893119, 2600822924, 528734635, 1541459225⟩

/-- One SHA-256 compression round; kw is the round constant plus the schedule
word, already reduced mod 2^32. -/
def sha256round (st : Sha256State) (kw : Nat) : Sha256State :=
  ⟨w32 (w32 (st.h + bigSigma1 st.e + chF st.e st.f st.g + kw) + bigSigma0 st.a + majF st.a st.b st.c),
   st.a, st.b, st.c,
   w32 (st.d + w32 (st.h + bigSigma1 st.e + chF st.e st.f st.g + kw)),
   st.e, st.f, st.g⟩

/-- Big-endian 32-bit words from a byte list, complete groups of four only. -/
def bytesToWords : List Nat → List Nat
  | b0 :: b1 :: b2 :: b3 :: rest =>
    (b0 * 16777216 + b1 * 65536 + b2 * 256 + b3) :: bytesToWords rest
  | _ => []

/-- Append one word of the SHA-256 message schedule. -/
def sha256extendStep (w : List Nat) : List Nat :=
  w ++ [w32 (smallSigma1 (w.getD (w.length - 2) 0) + w.getD (w.length - 7) 0 +
        smallSigma0 (w.getD (w.length - 15) 0) + w.getD (w.length - 16) 0)]

/-- Iterate the schedule extension n times. -/
def sha256schedule : Nat → List Nat → List Nat
  | 0, w => w
  | n + 1, w => sha256schedule n (sha256extendStep w)

/-- Compress one 64-byte block into the running hash values. -/
def sha256compress (hv : Sha256State) (block : List Nat) : Sha256State :=
  let fin := (List.zipWith (fun k wi => w32 (k + wi)) sha256K
    (sha256schedule 48 (bytesToWords block))).foldl sha256round hv
  ⟨w32 (hv.a + fin.a), w32 (hv.b + fin.b), w32 (hv.c + fin.c), w32 (hv.d + fin.d),
   w32 (hv.e + fin.e), w32 (hv.f + fin.f), w32 (hv.g + fin.g), w32 (hv.h + fin.h)⟩

/-- Big-endian 8-byte encoding of a 64-bit length. -/
def be64 (n : Nat) : List Nat :=
  [n / 72057594037927936 % 256, n / 281474976710656 % 256, n / 1099511627776 % 256,
   n / 4294967296 % 256, n / 16777216 % 256, n / 65536 % 256, n / 256 % 256, n % 256]

/-- SHA-256 padding: a 0x80 byte, zeros, then the bit length, reaching a
multiple of 64 bytes. -/
def sha256pad (msg : List Nat) : List Nat :=
  msg ++ 128 :: List.replicate ((64 - (msg.length + 9) % 64) % 64) 0 ++ be64 (8 * msg.length)

/-- Fold the compression over n consecutive 64-byte blocks. -/
def sha256blocks (hv : Sha256State) : Nat → List Nat → Sha256State
  | 0, _ => hv
  | n + 1, msg => sha256blocks (sha256compress hv (msg.take 64)) n (msg.drop 64)

/-- Big-endian 4-byte encoding of a 32-bit word. -/
def be32 (n : Nat) : List Nat := [n / 16777216 % 256, n / 65536 % 256, n / 256 % 256, n % 256]

/-- The 32 digest bytes of a final SHA-256 state. -/
def stateToBytes (s : Sha256State) : List Nat :=
  be32 s.a ++ be32 s.b ++ be32 s.c ++ be32 s.d ++ be32 s.e ++ be32 s.f ++ be32 s.g ++ be32 s.h

/-- SHA-256 of a byte list. -/
def sha256 (msg : List Nat) : List Nat :=
  stateToBytes (sha256blocks sha256init ((sha256pad msg).length / 64) (sha256pad msg))

/-- HMAC-SHA256 (RFC 2104) with a 64-byte block size. -/
def hmacSha256 (key msg : List Nat) : List Nat :=
  sha256 (((if 64 < key.length then sha256 key else key) ++
      List.replicate (64 - (if 64 < key.length then sha256 key else key).length) 0).map
        (fun x => x ^^^ 92) ++
    sha256 (((if 64 < key.length then sha256 key else key) ++
      List.replicate (64 - (if 64 < key.length then sha256 key else key).length) 0).map
        (fun x => x ^^^ 54) ++ msg))

/-- UTF-8 bytes of one character. -/
def utf8Char (c : Char) : List Nat :=
  if c.toNat < 128 then [c.toNat]
  else if c.toNat < 2048 then [192 + c.toNat / 64, 128 + c.toNat % 64]
  else if c.toNat < 65536 then
    [224 + c.toNat / 4096, 128 + c.toNat / 64 % 64, 128 + c.toNat % 64]
  else
    [240 + c.toNat / 262144, 128 + c.toNat / 4096 % 64, 128 + c.toNat / 64 % 64,
     128 + c.toNat % 64]

/-- UTF-8 bytes of a string, as produced by Buffer.from(s, utf8). -/
def utf8 (s : String) : List Nat := s.toList.foldr (fun c acc => utf8Char c ++ acc) []

/-- Lowercase hex digit for a value below 16. -/
def hexDigit (n : Nat) : Char := "0123456789abcdef".toList.getD n 'x'

/-- Lowercase hex encoding of a byte list, as produced by digest(hex). -/
def hexEncodeList (bs : List Nat) : List Char :=
  bs.foldr (fun x acc => hexDigit (x / 16) :: hexDigit (x % 16) :: acc) []

/-- computeHmac (CryptocloudSignature.ts lines 3-5): the lowercase hex HMAC
SHA-256 digest of the UTF-8 body keyed by the UTF-8 secret. -/
def computeHmac (secret body : String) : String :=
  String.mk (hexEncodeList (hmacSha256 (utf8 secret) (utf8 body)))

/-- Hex value of one character, as in the hex decoder of Node. -/
def hexVal (c : Char) : Option Nat :=
  if 48 ≤ c.toNat ∧ c.toNat ≤ 57 then some (c.toNat - 48)
  else if 97 ≤ c.toNat ∧ c.toNat ≤ 102 then some (c.toNat - 87)
  else if 65 ≤ c.toNat ∧ c.toNat ≤ 70 then some (c.toNat - 55)
  else none

/-- Buffer.from(s, hex) in Node: decode complete pairs of hex characters from
the left, stop silently at the first invalid pair, drop a lone trailing
character. This never throws. -/
def hexDecodeLoop : List Char → List Nat
  | c1 :: c2 :: rest =>
    match hexVal c1, hexVal c2 with
    | some hi, some lo => (16 * hi + lo) :: hexDecodeLoop rest
    | _, _ => []
  | _ => []

/-- crypto.timingSafeEqual: throws when the buffer lengths differ, otherwise
reports whether the contents are equal. -/
def timingSafeEqual (x y : List Nat) : Except String Bool :=
  if x.length = y.length then .ok (x == y) else .error "ERR_CRYPTO_TIMING_SAFE_EQUAL_LENGTH"

/-- verifySignature (CryptocloudSignature.ts lines 7-15), parametrized by the
digest function: on the missing-signature path the result is produced before
the digest function is ever consulted, so it holds for every such function.
JavaScript treats both undefined and the empty string as falsy on line 8. -/
def verifySignatureWith (hmacF : String → String → String)
    (secret body : String) (providedSignature : Option String) : Bool :=
  match providedSignature with
  | none => false
  | some sig =>
    if sig = "" then false
    else
      if (hexDecodeLoop (hmacF secret body).toList).length ≠
          (hexDecodeLoop sig.toList).length then false
      else hexDecodeLoop (hmacF secret body).toList == hexDecodeLoop sig.toList

/-- verifySignature as shipped: the digest function is computeHmac. -/
def verifySignature (secret body : String) (providedSignature : Option String) : Bool :=
  verifySignatureWith computeHmac secret body providedSignature

/-- verifySignature with every fallible step of its Node primitives made
explicit: hex decoding never throws, and timingSafeEqual, the only throwing
primitive, is reached only after the guarding length check. -/
def verifySignatureE (secret body : String) (providedSignature : Option String) :
    Except String Bool :=
  match providedSignature with
  | none => .ok false
  | some sig =>
    if sig = "" then .ok false
    else
      if (hexDecodeLoop (computeHmac secret body).toList).length ≠
          (hexDecodeLoop sig.toList).length then .ok false
      else timingSafeEqual (hexDecodeLoop (computeHmac secret body).toList)
        (hexDecodeLoop sig.toList)

/-! Helper lemmas about the retry loop. -/

theorem withRetryAux_attempts_pos {α : Type} (op : Nat → Except CCError α)
    (d m : Nat) : ∀ fuel a, 1 ≤ (withRetryAux op d m a fuel).attempts := by
  intro fuel
  induction fuel with
  | zero =>
    intro a
    unfold withRetryAux
    cases op a <;> simp
  | succ n ih =>
    intro a
    unfold withRetryAux
    cases op a with
    | ok v => simp
    | error e =>
      by_cases h : nonRetryable e <;> simp [h]

theorem withRetryAux_attempts_le {α : Type} (op : Nat → Except CCError α)
    (d m : Nat) : ∀ fuel a, (withRetryAux op d m a fuel).attempts ≤ fuel + 1 := by
  intro fuel
  induction fuel with
  | zero =>
    intro a
    unfold withRetryAux
    cases op a <;> simp
  | succ n ih =>
    intro a
    unfold withRetryAux
    cases op a with
    | ok v => simp
    | error e =>
      by_cases h : nonRetryable e
      · simp [h]
      · simpa [h] using Nat.succ_le_succ (ih (a + 1))

theorem range_map_shift (d m a n : Nat) :
    (List.range (n + 1)).map (fun i => d * m ^ (a + i)) =
      d * m ^ a :: (List.range n).map (fun i => d * m ^ (a + 1 + i)) := by
  rw [List.range_succ_eq_map, List.map_cons, List.map_map]
  refine congrArg₂ List.cons (by simp) (List.map_congr_left ?_)
  intro i _
  show d * m ^ (a + (i + 1)) = d * m ^ (a + 1 + i)
  have : a + (i + 1) = a + 1 + i := by omega
  rw [this]

theorem withRetryAux_allFail {α : Type} (op : Nat → Except CCError α)
    (errs : Nat → CCError) (d m : Nat)
    (hop : ∀ k, op k = .error (errs k))
    (hre : ∀ k, nonRetryable (errs k) = false) :
    ∀ fuel a, withRetryAux op d m a fuel =
      ⟨.error (errs (a + fuel)), fuel + 1,
        (List.range fuel).map (fun i => d * m ^ (a + i))⟩ := by
  intro fuel
  induction fuel with
  | zero =>
    intro a
    unfold withRetryAux
    rw [hop a]
    simp
  | succ n ih =>
    intro a
    unfold withRetryAux
    rw [hop a]
    simp only [hre a, Bool.false_eq_true, if_false, ih (a + 1)]
    rw [show a + 1 + n = a + (n + 1) by omega, range_map_shift]

theorem withRetryAux_succeed {α : Type} (op : Nat → Except CCError α) (d m : Nat) :
    ∀ fuel a j v, j ≤ fuel → op (a + j) = .ok v →
      (∀ i, i < j → ∃ e, op (a + i) = .error e ∧ nonRetryable e = false) →
      withRetryAux op d m a fuel =
        ⟨.ok v, j + 1, (List.range j).map (fun i => d * m ^ (a + i))⟩ := by
  intro fuel
  induction fuel with
  | zero =>
    intro a j v hj hok _
    interval_cases j
    unfold withRetryAux
    rw [show a + 0 = a from rfl] at hok
    rw [hok]
    simp
  | succ n ih =>
    intro a j v hj hok hfail
    cases j with
    | zero =>
      unfold withRetryAux
      rw [show a + 0 = a from rfl] at hok
      rw [hok]
      simp
    | succ j' =>
      obtain ⟨e, he, hne⟩ := hfail 0 (Nat.succ_pos j')
      rw [show a + 0 = a from rfl] at he
      unfold withRetryAux
      rw [he]
      simp only [hne, Bool.false_eq_true, if_false]
      have hok' : op (a + 1 + j') = .ok v := by
        rw [show a + 1 + j' = a + (j' + 1) by omega]
        exact hok
      have hfail' : ∀ i, i < j' → ∃ e, op (a + 1 + i) = .error e ∧ nonRetryable e = false := by
        intro i hi
        obtain ⟨e', he', hne'⟩ := hfail (i + 1) (by omega)
        exact ⟨e', by rw [show a + 1 + i = a + (i + 1) by omega]; exact he', hne'⟩
      rw [ih (a + 1) j' v (by omega) hok' hfail']
      refine congrArg₂ (RetryRun.mk _) rfl ?_
      rw [range_map_shift]

theorem withRetryAux_delays {α : Type} (op : Nat → Except CCError α) (d m : Nat) :
    ∀ fuel a, (withRetryAux op d m a fuel).delays =
      (List.range ((withRetryAux op d m a fuel).attempts - 1)).map
        (fun i => d * m ^ (a + i)) := by
  intro fuel
  induction fuel with
  | zero =>
    intro a
    unfold withRetryAux
    cases op a <;> simp
  | succ n ih =>
    intro a
    unfold withRetryAux
    cases op a with
    | ok v => simp
    | error e =>
      by_cases h : nonRetryable e
      · simp [h]
      · simp only [h, Bool.false_eq_true, if_false]
        have hpos := withRetryAux_attempts_pos op d m n (a + 1)
        have hsub : (withRetryAux op d m (a + 1) n).attempts + 1 - 1 =
            ((withRetryAux op d m (a + 1) n).attempts - 1) + 1 := by omega
        show d * m ^ a :: (withRetryAux op d m (a + 1) n).delays =
          (List.range ((withRetryAux op d m (a + 1) n).attempts + 1 - 1)).map
            (fun i => d * m ^ (a + i))
        rw [hsub, range_map_shift, ih (a + 1)]

theorem withRetry_stop_nonretryable {α : Type} (opts : RetryOptions)
    (op : Nat → Except CCError α) (e : CCError)
    (h0 : op 0 = .error e) (hne : nonRetryable e = true) :
    withRetry op opts = ⟨.error e, 1, []⟩ := by
  unfold withRetry
  cases (resolveOptions opts).maxRetries with
  | zero =>
    unfold withRetryAux
    rw [h0]
  | succ n =>
    unfold withRetryAux
    rw [h0]
    simp [hne]

/-! Claim theorems about the retry executor. -/

/-- Claim C1: for every retry policy and every operation whose first attempt
fails with a CryptocloudError carrying statusCode 400, 401 or 403, withRetry
runs the operation exactly once, sleeps no delay, and re-raises that very
error, regardless of maxRetries. -/
theorem withRetry_nonretryable_once {α : Type} (opts : RetryOptions)
    (op : Nat → Except CCError α) (e : CCError)
    (h0 : op 0 = .error e) (hcc : e.isCryptocloudError = true)
    (hsc : e.statusCode = some 400 ∨ e.statusCode = some 401 ∨ e.statusCode = some 403) :
    withRetry op opts = ⟨.error e, 1, []⟩ := by
  refine withRetry_stop_nonretryable opts op e h0 ?_
  unfold nonRetryable
  rcases hsc with h | h | h <;> rw [hcc, h] <;> rfl

/-- Witness for C1: a 401 CryptocloudError is raised after a single attempt
even under a policy allowing 5 retries. -/
theorem withRetry_nonretryable_once_witness :
    withRetry (fun _ => (.error ⟨true, "Unauthorized", "HTTP_401", some 401⟩ :
        Except CCError Nat)) ⟨some 5, some 7, some 2⟩ =
      ⟨.error ⟨true, "Unauthorized", "HTTP_401", some 401⟩, 1, []⟩ :=
  withRetry_nonretryable_once ⟨some 5, some 7, some 2⟩ _ _ rfl rfl (Or.inr (Or.inl rfl))

/-- Claim C2: with maxRetries = N, an operation that fails on every attempt
with a retryable error is run exactly N+1 times and the raised error is the
one observed on the last attempt; and every withRetry run makes at most
maxRetries + 1 attempts. -/
theorem withRetry_exhausts_all_attempts :
    (∀ (α : Type) (opts : RetryOptions) (op : Nat → Except CCError α) (errs : Nat → CCError),
      (∀ k, op k = .error (errs k)) → (∀ k, nonRetryable (errs k) = false) →
      (withRetry op opts).attempts = (resolveOptions opts).maxRetries + 1 ∧
        (withRetry op opts).result = .error (errs (resolveOptions opts).maxRetries)) ∧
    (∀ (α : Type) (opts : RetryOptions) (op : Nat → Except CCError α),
      (withRetry op opts).attempts ≤ (resolveOptions opts).maxRetries + 1) := by
  constructor
  · intro α opts op errs hop hre
    unfold withRetry
    rw [withRetryAux_allFail op errs _ _ hop hre (resolveOptions opts).maxRetries 0]
    refine ⟨rfl, ?_⟩
    show Except.error (errs (0 + (resolveOptions opts).maxRetries)) = _
    rw [Nat.zero_add]
  · intro α opts op
    exact withRetryAux_attempts_le op _ _ _ 0

/-- Witness for C2: maxRetries = 2 and a constant retryable failure give
exactly 3 attempts and raise the failure itself. -/
theorem withRetry_exhausts_all_attempts_witness :
    (withRetry (fun _ => (.error ⟨false, "network error", "UNKNOWN_ERROR", none⟩ :
        Except CCError Nat)) ⟨some 2, some 5, some 3⟩).attempts = 3 ∧
      (withRetry (fun _ => (.error ⟨false, "network error", "UNKNOWN_ERROR", none⟩ :
        Except CCError Nat)) ⟨some 2, some 5, some 3⟩).result =
        .error ⟨false, "network error", "UNKNOWN_ERROR", none⟩ :=
  withRetry_exhausts_all_attempts.1 Nat ⟨some 2, some 5, some 3⟩ _
    (fun _ => ⟨false, "network error", "UNKNOWN_ERROR", none⟩) (fun _ => rfl) (fun _ => rfl)

/-- Claim C7: if the operation succeeds on attempt j (0-based, j bounded by
maxRetries) after retryable failures on all earlier attempts, withRetry
returns exactly that value and makes exactly j + 1 attempts, so nothing runs
after the first success. -/
theorem withRetry_returns_first_success {α : Type} (opts : RetryOptions)
    (op : Nat → Except CCError α) (j : Nat) (v : α)
    (hj : j ≤ (resolveOptions opts).maxRetries) (hok : op j = .ok v)
    (hfail : ∀ i, i < j → ∃ e, op i = .error e ∧ nonRetryable e = false) :
    (withRetry op opts).result = .ok v ∧ (withRetry op opts).attempts = j + 1 := by
  unfold withRetry
  rw [withRetryAux_succeed op (resolveOptions opts).delayMs
    (resolveOptions opts).backoffMultiplier (resolveOptions opts).maxRetries 0 j v hj
    (by rw [Nat.zero_add]; exact hok)
    (by intro i hi; rw [Nat.zero_add]; exact hfail i hi)]
  exact ⟨rfl, rfl⟩

/-- Witness for C7: under the default policy, an operation failing once with a
retryable error and succeeding on its second run returns that value after
exactly 2 attempts. -/
theorem withRetry_returns_first_success_witness :
    (withRetry (fun k => if k = 0 then
        (.error ⟨false, "timeout", "UNKNOWN_ERROR", none⟩ : Except CCError Nat)
      else .ok 42) ⟨none, none, none⟩).result = .ok 42 ∧
    (withRetry (fun k => if k = 0 then
        (.error ⟨false, "timeout", "UNKNOWN_ERROR", none⟩ : Except CCError Nat)
      else .ok 42) ⟨none, none, none⟩).attempts = 2 :=
  withRetry_returns_first_success ⟨none, none, none⟩ _ 1 42 (by decide) rfl
    (fun i hi => by interval_cases i; exact ⟨⟨false, "timeout", "UNKNOWN_ERROR", none⟩, rfl, rfl⟩)

/-- Claim C8: in every run, the delay slept after the (i+1)-st attempt
(0-based i) is delayMs times backoffMultiplier to the power i, and absent
policy fields default to maxRetries = 3, delayMs = 1000,
backoffMultiplier = 2. -/
theorem withRetry_backoff_and_defaults :
    (∀ (α : Type) (opts : RetryOptions) (op : Nat → Except CCError α),
      (withRetry op opts).delays =
        (List.range ((withRetry op opts).attempts - 1)).map
          (fun i => (resolveOptions opts).delayMs *
            (resolveOptions opts).backoffMultiplier ^ i)) ∧
    DEFAULT_RETRY_OPTIONS = ⟨3, 1000, 2⟩ ∧
      resolveOptions ⟨none, none, none⟩ = ⟨3, 1000, 2⟩ := by
  refine ⟨?_, rfl, rfl⟩
  intro α opts op
  unfold withRetry
  have h := withRetryAux_delays op (resolveOptions opts).delayMs
    (resolveOptions opts).backoffMultiplier (resolveOptions opts).maxRetries 0
  simpa using h

/-- Witness for C8 at a concrete always-failing operation under the default
policy. -/
theorem withRetry_backoff_and_defaults_witness :
    (withRetry (fun _ => (.error ⟨false, "x", "UNKNOWN_ERROR", none⟩ : Except CCError Nat))
        ⟨none, none, none⟩).delays =
      (List.range ((withRetry (fun _ => (.error ⟨false, "x", "UNKNOWN_ERROR", none⟩ :
          Except CCError Nat)) ⟨none, none, none⟩).attempts - 1)).map
        (fun i => (resolveOptions ⟨none, none, none⟩).delayMs *
          (resolveOptions ⟨none, none, none⟩).backoffMultiplier ^ i) :=
  withRetry_backoff_and_defaults.1 Nat ⟨none, none, none⟩ _

/-- Claim C10: getInvoiceInfo with an empty uuids list throws a
CryptocloudError with code INVALID_ARGUMENT and no statusCode on every
attempt; because the retry classifier only stops on statusCodes 400, 401 and
403, this pure validation failure is treated as retryable and re-executed
maxRetries + 1 = 4 times with backoff delays 1000, 2000, 4000 before
surfacing, while the more-than-100-uuids check throws with statusCode 400
and surfaces after a single attempt with no delay. -/
theorem getInvoiceInfo_validation_classification {α : Type}
    (http : Nat → Except CCError (ApiResponse α)) (uuids : List String)
    (hlen : uuids.length > 100) :
    getInvoiceInfo ([] : List String) http =
      ⟨.error ⟨true, "uuids must be a non-empty array", "INVALID_ARGUMENT", none⟩, 4,
       [1000, 2000, 4000]⟩ ∧
    getInvoiceInfo uuids http =
      ⟨.error ⟨true, "Max 100 uuids", "MAX_UUIDS_EXCEEDED", some 400⟩, 1, []⟩ := by
  constructor
  · rfl
  · refine withRetry_stop_nonretryable ⟨none, none, none⟩ _ _ ?_ rfl
    show getInvoiceInfoAttempt uuids (http 0) = _
    unfold getInvoiceInfoAttempt
    rw [if_neg (by omega), if_pos hlen]

/-! Helper lemmas about hex encoding, hex decoding and digest shape. -/

theorem be32_mem_lt (n : Nat) : ∀ x ∈ be32 n, x < 256 := by
  intro x hx
  simp only [be32, List.mem_cons, List.not_mem_nil, or_false] at hx
  rcases hx with rfl | rfl | rfl | rfl <;> exact Nat.mod_lt _ (by omega)

theorem sha256_mem_lt (msg : List Nat) : ∀ x ∈ sha256 msg, x < 256 := by
  intro x hx
  simp only [sha256, stateToBytes, List.mem_append] at hx
  rcases hx with ((((((h | h) | h) | h) | h) | h) | h) | h <;> exact be32_mem_lt _ x h

theorem sha256_length (msg : List Nat) : (sha256 msg).length = 32 := by
  simp [sha256, stateToBytes, be32]

theorem hmacSha256_mem_lt (key msg : List Nat) : ∀ x ∈ hmacSha256 key msg, x < 256 :=
  sha256_mem_lt _

theorem hmacSha256_length (key msg : List Nat) : (hmacSha256 key msg).length = 32 :=
  sha256_length _

theorem hexEncodeList_length (bs : List Nat) : (hexEncodeList bs).length = 2 * bs.length := by
  induction bs with
  | nil => rfl
  | cons x t ih =>
    show (hexDigit (x / 16) :: hexDigit (x % 16) :: hexEncodeList t).length = 2 * (x :: t).length
    simp only [List.length_cons, ih]
    omega

theorem computeHmac_toList_length (s b : String) : (computeHmac s b).toList.length = 64 := by
  have h := hexEncodeList_length (hmacSha256 (utf8 s) (utf8 b))
  rw [hmacSha256_length] at h
  exact h

theorem computeHmac_ne_empty (s b : String) : computeHmac s b ≠ "" := by
  intro h
  have h0 : (computeHmac s b).toList.length = 0 := by rw [h]; rfl
  rw [computeHmac_toList_length] at h0
  exact absurd h0 (by decide)

theorem hexDigit_hexVal {n : Nat} (h : n < 16) : hexVal (hexDigit n) = some n := by
  interval_cases n <;> rfl

theorem hexVal_toUpper_hexDigit {n : Nat} (h : n < 16) :
    hexVal (Char.toUpper (hexDigit n)) = some n := by
  interval_cases n <;> rfl

theorem hexVal_lt {c : Char} {v : Nat} (h : hexVal c = some v) : v < 16 := by
  unfold hexVal at h
  split_ifs at h with h1 h2 h3 <;> simp_all <;> omega

theorem hexDecodeLoop_cons_some {c1 c2 : Char} {hi lo : Nat} (h1 : hexVal c1 = some hi)
    (h2 : hexVal c2 = some lo) (rest : List Char) :
    hexDecodeLoop (c1 :: c2 :: rest) = (16 * hi + lo) :: hexDecodeLoop rest := by
  simp only [hexDecodeLoop]
  rw [h1, h2]

theorem hexDecodeLoop_cons_fst_none {c1 : Char} (h1 : hexVal c1 = none)
    (c2 : Char) (rest : List Char) : hexDecodeLoop (c1 :: c2 :: rest) = [] := by
  simp only [hexDecodeLoop]
  rw [h1]

theorem hexDecodeLoop_cons_snd_none {c2 : Char} (h2 : hexVal c2 = none)
    (c1 : Char) (rest : List Char) : hexDecodeLoop (c1 :: c2 :: rest) = [] := by
  simp only [hexDecodeLoop]
  rw [h2]
  cases hexVal c1 <;> rfl

theorem hexDecode_encode (bs : List Nat) (h : ∀ b ∈ bs, b < 256) :
    hexDecodeLoop (hexEncodeList bs) = bs := by
  induction bs with
  | nil => rfl
  | cons x t ih =>
    have hx : x < 256 := h x (List.mem_cons_self x t)
    show hexDecodeLoop (hexDigit (x / 16) :: hexDigit (x % 16) :: hexEncodeList t) = x :: t
    rw [hexDecodeLoop_cons_some (hexDigit_hexVal (show x / 16 < 16 by omega))
      (hexDigit_hexVal (show x % 16 < 16 by omega)) (hexEncodeList t),
      ih (fun y hy => h y (List.mem_cons_of_mem x hy))]
    congr 1
    omega

theorem hexDecode_encode_append (bs : List Nat) (suffix : List Char)
    (h : ∀ b ∈ bs, b < 256) :
    hexDecodeLoop (hexEncodeList bs ++ suffix) = bs ++ hexDecodeLoop suffix := by
  induction bs with
  | nil => rfl
  | cons x t ih =>
    have hx : x < 256 := h x (List.mem_cons_self x t)
    show hexDecodeLoop (hexDigit (x / 16) :: hexDigit (x % 16) :: (hexEncodeList t ++ suffix)) =
      x :: (t ++ hexDecodeLoop suffix)
    rw [hexDecodeLoop_cons_some (hexDigit_hexVal (show x / 16 < 16 by omega))
      (hexDigit_hexVal (show x % 16 < 16 by omega)) (hexEncodeList t ++ suffix),
      ih (fun y hy => h y (List.mem_cons_of_mem x hy))]
    congr 1
    omega

theorem hexDecode_map_toUpper (bs : List Nat) (h : ∀ b ∈ bs, b < 256) :
    hexDecodeLoop ((hexEncodeList bs).map Char.toUpper) = bs := by
  induction bs with
  | nil => rfl
  | cons x t ih =>
    have hx : x < 256 := h x (List.mem_cons_self x t)
    show hexDecodeLoop (Char.toUpper (hexDigit (x / 16)) :: Char.toUpper (hexDigit (x % 16)) ::
      (hexEncodeList t).map Char.toUpper) = x :: t
    rw [hexDecodeLoop_cons_some (hexVal_toUpper_hexDigit (show x / 16 < 16 by omega))
      (hexVal_toUpper_hexDigit (show x % 16 < 16 by omega)) ((hexEncodeList t).map Char.toUpper),
      ih (fun y hy => h y (List.mem_cons_of_mem x hy))]
    congr 1
    omega

theorem hexDecode_set_ne :
    ∀ (bs : List Nat), (∀ b ∈ bs, b < 256) → ∀ (j : Nat) (c : Char),
      j < (hexEncodeList bs).length →
      hexVal c ≠ hexVal ((hexEncodeList bs).getD j 'x') →
      hexDecodeLoop ((hexEncodeList bs).set j c) ≠ bs := by
  intro bs
  induction bs with
  | nil =>
    intro _ j c hj _
    simp [hexEncodeList] at hj
  | cons x t ih =>
    intro h j c hj hne
    have hx : x < 256 := h x (List.mem_cons_self x t)
    have ht : ∀ b ∈ t, b < 256 := fun y hy => h y (List.mem_cons_of_mem x hy)
    rcases j with _ | _ | j'
    · have hne' : hexVal c ≠ hexVal (hexDigit (x / 16)) := hne
      rw [hexDigit_hexVal (show x / 16 < 16 by omega)] at hne'
      show hexDecodeLoop (c :: hexDigit (x % 16) :: hexEncodeList t) ≠ x :: t
      cases hc : hexVal c with
      | none =>
        rw [hexDecodeLoop_cons_fst_none hc (hexDigit (x % 16)) (hexEncodeList t)]
        simp
      | some v =>
        have hv : v < 16 := hexVal_lt hc
        rw [hexDecodeLoop_cons_some hc (hexDigit_hexVal (show x % 16 < 16 by omega))
          (hexEncodeList t)]
        intro heq
        injection heq with h3 _
        have hvx : v = x / 16 := by omega
        exact hne' (hvx ▸ hc)
    · have hne' : hexVal c ≠ hexVal (hexDigit (x % 16)) := hne
      rw [hexDigit_hexVal (show x % 16 < 16 by omega)] at hne'
      show hexDecodeLoop (hexDigit (x / 16) :: c :: hexEncodeList t) ≠ x :: t
      cases hc : hexVal c with
      | none =>
        rw [hexDecodeLoop_cons_snd_none hc (hexDigit (x / 16)) (hexEncodeList t)]
        simp
      | some v =>
        have hv : v < 16 := hexVal_lt hc
        rw [hexDecodeLoop_cons_some (hexDigit_hexVal (show x / 16 < 16 by omega)) hc
          (hexEncodeList t)]
        intro heq
        injection heq with h3 _
        have hvx : v = x % 16 := by omega
        exact hne' (hvx ▸ hc)
    · have hne' : hexVal c ≠ hexVal ((hexEncodeList t).getD j' 'x') := hne
      have hj' : j' < (hexEncodeList t).length := by
        have hj2 : j' + 2 < (hexEncodeList t).length + 2 := hj
        omega
      show hexDecodeLoop (hexDigit (x / 16) :: hexDigit (x % 16) ::
        (hexEncodeList t).set j' c) ≠ x :: t
      rw [hexDecodeLoop_cons_some (hexDigit_hexVal (show x / 16 < 16 by omega))
        (hexDigit_hexVal (show x % 16 < 16 by omega)) ((hexEncodeList t).set j' c)]
      intro heq
      injection heq with _ h4
      exact ih ht j' c hj' hne' h4

theorem decode_computeHmac (s b : String) :
    hexDecodeLoop (computeHmac s b).toList = hmacSha256 (utf8 s) (utf8 b) :=
  hexDecode_encode _ (hmacSha256_mem_lt _ _)

theorem verifySignatureWith_some (hmacF : String → String → String) (s b sig : String)
    (hsig : sig ≠ "") :
    verifySignatureWith hmacF s b (some sig) =
      if (hexDecodeLoop (hmacF s b).toList).length ≠ (hexDecodeLoop sig.toList).length
      then false
      else hexDecodeLoop (hmacF s b).toList == hexDecodeLoop sig.toList := by
  show (if sig = "" then false
    else
      if (hexDecodeLoop (hmacF s b).toList).length ≠ (hexDecodeLoop sig.toList).length then false
      else hexDecodeLoop (hmacF s b).toList == hexDecodeLoop sig.toList) = _
  rw [if_neg hsig]

theorem verifySignature_some_true_iff (s b sig : String) (hsig : sig ≠ "") :
    verifySignature s b (some sig) = true ↔
      hexDecodeLoop sig.toList = hexDecodeLoop (computeHmac s b).toList := by
  rw [verifySignature, verifySignatureWith_some computeHmac s b sig hsig]
  by_cases hL : (hexDecodeLoop (computeHmac s b).toList).length =
      (hexDecodeLoop sig.toList).length
  · rw [if_neg (fun h2 => h2 hL)]
    simp only [beq_iff_eq]
    exact eq_comm
  · rw [if_pos hL]
    simp only [Bool.false_eq_true, false_iff]
    intro heq
    exact hL (congrArg List.length heq.symm)

/-- Witness for C10 at a concrete transport and a concrete list of 101
uuids. -/
theorem getInvoiceInfo_validation_classification_witness :
    getInvoiceInfo ([] : List String)
        (fun _ => (.error ⟨false, "net", "UNKNOWN_ERROR", none⟩ :
          Except CCError (ApiResponse Nat))) =
      ⟨.error ⟨true, "uuids must be a non-empty array", "INVALID_ARGUMENT", none⟩, 4,
       [1000, 2000, 4000]⟩ ∧
    getInvoiceInfo (List.replicate 101 "u")
        (fun _ => (.error ⟨false, "net", "UNKNOWN_ERROR", none⟩ :
          Except CCError (ApiResponse Nat))) =
      ⟨.error ⟨true, "Max 100 uuids", "MAX_UUIDS_EXCEEDED", some 400⟩, 1, []⟩ :=
  getInvoiceInfo_validation_classification _ (List.replicate 101 "u") (by simp)

/-! Claim theorems about signature computation and verification. -/

/-- Claim C3: for every secret and body, verifying the digest produced by
computeHmac succeeds: the round trip of computing and then verifying a
signature returns true. -/
theorem verifySignature_roundtrip (s b : String) :
    verifySignature s b (some (computeHmac s b)) = true := by
  rw [verifySignature, verifySignatureWith_some computeHmac s b _ (computeHmac_ne_empty s b),
    if_neg (fun h2 => h2 rfl)]
  exact beq_self_eq_true _

/-- Claim C4: verifySignature is total and never raises: its
exception-explicit version, in which hex decoding is the silently truncating
Node decoder and timingSafeEqual is modelled as the one throwing primitive,
returns ok with exactly the boolean verifySignature computes, for every
secret, body and provided signature, including non-hex, odd-length and
empty strings. -/
theorem verifySignatureE_never_throws (s b : String) (p : Option String) :
    verifySignatureE s b p = .ok (verifySignature s b p) := by
  cases p with
  | none => rfl
  | some sig =>
    by_cases hs : sig = ""
    · rw [hs]; rfl
    · show (if sig = "" then Except.ok false
        else
          if (hexDecodeLoop (computeHmac s b).toList).length ≠ (hexDecodeLoop sig.toList).length
          then Except.ok false
          else timingSafeEqual (hexDecodeLoop (computeHmac s b).toList)
            (hexDecodeLoop sig.toList))
        = Except.ok (verifySignature s b (some sig))
      rw [if_neg hs, verifySignature, verifySignatureWith_some computeHmac s b sig hs]
      by_cases hL : (hexDecodeLoop (computeHmac s b).toList).length =
          (hexDecodeLoop sig.toList).length
      · rw [if_neg (fun h2 => h2 hL), if_neg (fun h2 => h2 hL)]
        unfold timingSafeEqual
        rw [if_pos hL]
      · rw [if_pos hL, if_pos hL]

/-- Claim C5 (amended): changing exactly one character of the computed digest
to a character with a different hex value, so anything except the
opposite-case form of the same hex digit, makes verifySignature return
false; and verification returns true only when the decoded byte buffers are
equal, in particular of equal length, byte for byte. -/
theorem verifySignature_single_change_rejected (s b : String) (j : Nat) (c : Char)
    (hj : j < (computeHmac s b).toList.length)
    (hne : hexVal c ≠ hexVal ((computeHmac s b).toList.getD j 'x')) :
    verifySignature s b (some (String.mk ((computeHmac s b).toList.set j c))) = false ∧
    ∀ sig : String, verifySignature s b (some sig) = true →
      hexDecodeLoop sig.toList = hexDecodeLoop (computeHmac s b).toList ∧
      (hexDecodeLoop sig.toList).length = (hexDecodeLoop (computeHmac s b).toList).length := by
  have hD : ∀ y ∈ hmacSha256 (utf8 s) (utf8 b), y < 256 := hmacSha256_mem_lt _ _
  have hnil : String.mk ((computeHmac s b).toList.set j c) ≠ "" := by
    intro hcontr
    have h0 : ((computeHmac s b).toList.set j c).length = 0 := congrArg String.length hcontr
    rw [List.length_set, computeHmac_toList_length] at h0
    exact absurd h0 (by decide)
  constructor
  · by_contra hcon
    rw [Bool.not_eq_false] at hcon
    have hdec := (verifySignature_some_true_iff s b _ hnil).mp hcon
    have hkey : hexDecodeLoop ((hexEncodeList (hmacSha256 (utf8 s) (utf8 b))).set j c) =
        hmacSha256 (utf8 s) (utf8 b) := hdec.trans (decode_computeHmac s b)
    exact hexDecode_set_ne _ hD j c hj hne hkey
  · intro sig hver
    have hs : sig ≠ "" := by
      intro hcontr
      rw [hcontr] at hver
      simp [verifySignature, verifySignatureWith] at hver
    have hdec := (verifySignature_some_true_iff s b sig hs).mp hver
    exact ⟨hdec, congrArg List.length hdec⟩

/-- Witness for the amended C5: with secret and body empty, replacing
character 0 of the digest, a letter b, by the digit 0 is rejected. -/
theorem verifySignature_single_change_rejected_witness :
    verifySignature "" "" (some (String.mk ((computeHmac "" "").toList.set 0 '0'))) = false :=
  (verifySignature_single_change_rejected "" "" 0 '0'
    (by rw [computeHmac_toList_length]; decide) (by decide)).1

/-- Counterexample to claim C5 as written: a provided signature that differs
from the digest of empty secret and empty body in exactly one character
position, with the same length, which verifySignature still accepts, because
the change only uppercases the hex digit b. -/
theorem verifySignature_single_change_cex :
    ((computeHmac "" "").toList.set 0 'B').length = (computeHmac "" "").toList.length ∧
    String.mk ((computeHmac "" "").toList.set 0 'B') ≠ computeHmac "" "" ∧
    verifySignature "" "" (some (String.mk ((computeHmac "" "").toList.set 0 'B'))) = true := by
  refine ⟨by simp, by decide, by decide⟩

/-- Claim C6: with no provided signature, verification fails immediately:
the missing-signature path of verifySignatureWith returns false for every
digest function whatsoever, so no digest is computed and nothing is
compared; in particular verifySignature returns false. -/
theorem verifySignature_missing_is_false_without_hash :
    (∀ (hm : String → String → String) (s b : String),
      verifySignatureWith hm s b none = false) ∧
    ∀ s b : String, verifySignature s b none = false :=
  ⟨fun _ _ _ => rfl, fun _ _ => rfl⟩

/-- Claim C9: verifySignature accepts provided signatures that are not
character-for-character equal to the computed digest: the digest with its
letters uppercased verifies, and the digest with trailing non-hex characters
appended verifies although it differs from the digest, because the provided
string is hex-decoded, with silent truncation and case folding, before the
length check. -/
theorem verifySignature_accepts_noncanonical (s b : String) :
    verifySignature s b (some (String.mk ((computeHmac s b).toList.map Char.toUpper))) = true ∧
    verifySignature s b (some (computeHmac s b ++ "zz")) = true ∧
    computeHmac s b ++ "zz" ≠ computeHmac s b := by
  have hD : ∀ y ∈ hmacSha256 (utf8 s) (utf8 b), y < 256 := hmacSha256_mem_lt _ _
  refine ⟨?_, ?_, ?_⟩
  · have hnil : String.mk ((computeHmac s b).toList.map Char.toUpper) ≠ "" := by
      intro hcontr
      have h0 : ((computeHmac s b).toList.map Char.toUpper).length = 0 :=
        congrArg String.length hcontr
      rw [List.length_map, computeHmac_toList_length] at h0
      exact absurd h0 (by decide)
    rw [verifySignature, verifySignatureWith_some computeHmac s b _ hnil]
    have hup : hexDecodeLoop (String.mk ((computeHmac s b).toList.map Char.toUpper)).toList =
        hmacSha256 (utf8 s) (utf8 b) := hexDecode_map_toUpper _ hD
    rw [hup, decode_computeHmac, if_neg (fun h2 => h2 rfl)]
    exact beq_self_eq_true _
  · have hnil : computeHmac s b ++ "zz" ≠ "" := by
      intro hcontr
      have h0 : ((computeHmac s b).toList ++ ['z', 'z']).length = 0 :=
        congrArg String.length hcontr
      rw [List.length_append, computeHmac_toList_length] at h0
      exact absurd h0 (by decide)
    rw [verifySignature, verifySignatureWith_some computeHmac s b _ hnil]
    have happ : hexDecodeLoop (computeHmac s b ++ "zz").toList =
        hmacSha256 (utf8 s) (utf8 b) := by
      have h1 := hexDecode_encode_append (hmacSha256 (utf8 s) (utf8 b)) ['z', 'z'] hD
      have hz : hexDecodeLoop ['z', 'z'] = [] := rfl
      rw [hz, List.append_nil] at h1
      exact h1
    rw [happ, decode_computeHmac, if_neg (fun h2 => h2 rfl)]
    exact beq_self_eq_true _
  · intro hcontr
    have h0 : ((computeHmac s b).toList ++ ['z', 'z']).length =
        (computeHmac s b).toList.length := congrArg String.length hcontr
    rw [List.length_append, computeHmac_toList_length] at h0
    exact absurd h0 (by decide)

end Cryptocloud
